import Mathlib

/-!
# Verified model of the device-stream core

A shallow embedding, in Lean 4, of the streaming-relay core of the
`device-stream` repository:

* the MJPEG frame framer of `MjpegStreamClient` (the `data` handler of
  `connect` together with `findJpegStart` / `findJpegEnd`);
* the wire-protocol constructors of `packages/core/src/protocol.ts`
  (`createMetadataMessage` and the codec tables);
* the `AsyncMutex` / `DeviceMutexManager` mutual-exclusion primitives of
  the same file, as a small-step interleaving semantics plus a functional
  model of the uncontended `withLock` path;
* the session registry of
  `packages/ios-simulator/src/stream-service.ts`
  (`handleDeviceConnection`, `handleBrowserConnection`, the browser-close
  eviction timer, `handleBrowserMessage`, `isDeviceConnected`).

Bytes are modelled as `Nat` (the source only compares them against the
constants `0xFF`, `0xD8`, `0xD9`); `Buffer`s as `List Nat`; the
side-effecting socket operations (`ws.send`, `ws.close`) as explicit
action lists returned by the translated functions.
-/

namespace DeviceStream

/-! ## Frame framer (`MjpegStreamClient`, `src/unnamed/part_002`)

`findJpegStart` scans for the two-byte SOI marker `FF D8`, `findJpegEnd`
for the EOI marker `FF D9` starting at `startPos + 2`.  Both source loops
run `i` from a lower bound to `buffer.length - 1` exclusive and return the
first `i` with `buffer[i] = 0xFF` and `buffer[i+1] = m`; `findMarker m`
is that loop on a list, and the two source functions are its two
instantiations. -/

/-- First index `i` of `l` with `l[i] = 0xFF` and `l[i+1] = m`
(`none` when the scan loop falls through, where the source returns -1). -/
def findMarker (m : Nat) : List Nat → Option Nat
  | a :: b :: rest =>
      if a = 0xFF ∧ b = m then some 0
      else (findMarker m (b :: rest)).map (· + 1)
  | _ => none

/-- Source `MjpegStreamClient.findJpegStart`: first `FF D8` pair of the buffer. -/
def findJpegStart (buffer : List Nat) : Option Nat := findMarker 0xD8 buffer

/-- Source `MjpegStreamClient.findJpegEnd`: first `FF D9` pair at an index
`≥ startPos + 2`. -/
def findJpegEnd (buffer : List Nat) (startPos : Nat) : Option Nat :=
  (findMarker 0xD9 (buffer.drop (startPos + 2))).map (· + (startPos + 2))

/-- The mutable parser state of the `res.on('data', ...)` closure:
`buffer`, `frameStarted`, `frameStart`. -/
@[ext]
structure FramerState where
  buffer : List Nat
  frameStarted : Bool
  frameStart : Nat
  deriving Repr, DecidableEq

/-- The `while (buffer.length > 0)` loop of the `data` handler, run to the
`break`: returns the frames emitted (in emission order) and the state left
for the next chunk.  The branch that finds a start marker falls through,
as in the source, to the end-marker check of the same iteration. -/
def runFramer (buffer : List Nat) (frameStarted : Bool) (frameStart : Nat) :
    List (List Nat) × FramerState :=
  if hb : buffer = [] then ([], ⟨buffer, frameStarted, frameStart⟩)
  else if frameStarted then
    match findJpegEnd buffer frameStart with
    | some jpegEnd =>
        let frame := (buffer.take (jpegEnd + 2)).drop frameStart
        let r := runFramer (buffer.drop (jpegEnd + 2)) false frameStart
        (frame :: r.1, r.2)
    | none => ([], ⟨buffer, true, frameStart⟩)
  else
    match findJpegStart buffer with
    | some jpegStart =>
        match findJpegEnd buffer jpegStart with
        | some jpegEnd =>
            let frame := (buffer.take (jpegEnd + 2)).drop jpegStart
            let r := runFramer (buffer.drop (jpegEnd + 2)) false jpegStart
            (frame :: r.1, r.2)
        | none => ([], ⟨buffer, true, jpegStart⟩)
    | none =>
        if buffer.length > 2 then
          ([], ⟨buffer.drop (buffer.length - 2), false, frameStart⟩)
        else ([], ⟨buffer, false, frameStart⟩)
termination_by buffer.length
decreasing_by
  · simp only [List.length_drop]
    have : buffer.length ≠ 0 := fun h => hb (List.eq_nil_of_length_eq_zero h)
    omega
  · simp only [List.length_drop]
    have : buffer.length ≠ 0 := fun h => hb (List.eq_nil_of_length_eq_zero h)
    omega

/-- One `data` event: append the chunk to the buffered bytes and run the
parsing loop. -/
def processChunk (s : FramerState) (chunk : List Nat) :
    List (List Nat) × FramerState :=
  runFramer (s.buffer ++ chunk) s.frameStarted s.frameStart

/-- Feed a sequence of chunks, collecting all emitted frames in order. -/
def feedChunks (s : FramerState) : List (List Nat) → List (List Nat) × FramerState
  | [] => ([], s)
  | c :: cs =>
      let r := processChunk s c
      let r' := feedChunks r.2 cs
      (r.1 ++ r'.1, r'.2)

/-- The parser state at stream start: empty buffer, not inside a frame. -/
def initState : FramerState := ⟨[], false, 0⟩

example : (feedChunks initState [[0xFF, 0xD8, 1, 2, 0xFF, 0xD9]]).1 =
    [[0xFF, 0xD8, 1, 2, 0xFF, 0xD9]] := by
  simp [feedChunks, processChunk, runFramer, findJpegStart, findJpegEnd,
    findMarker, initState]

example : (feedChunks initState [[0xFF], [0xD8, 1], [2, 0xFF], [0xD9]]).1 =
    [[0xFF, 0xD8, 1, 2, 0xFF, 0xD9]] := by
  simp [feedChunks, processChunk, runFramer, findJpegStart, findJpegEnd,
    findMarker, initState]

example : (feedChunks initState [[9, 9, 9, 9]]).2.buffer = [9, 9] := by
  simp [feedChunks, processChunk, runFramer, findJpegStart, findJpegEnd,
    findMarker, initState]

/-! ### Scan-loop lemmas -/

theorem findMarker_some_bound {m : Nat} {l : List Nat} {i : Nat}
    (h : findMarker m l = some i) : i + 2 ≤ l.length := by
  induction l generalizing i with
  | nil => simp [findMarker] at h
  | cons a t ih =>
    cases t with
    | nil => simp [findMarker] at h
    | cons b rest =>
      rw [findMarker] at h
      split at h
      · obtain rfl : i = 0 := by simpa using h.symm
        simp
      · rw [Option.map_eq_some'] at h
        obtain ⟨i', hi', rfl⟩ := h
        have := ih hi'
        simp only [List.length_cons] at this ⊢
        omega

theorem findMarker_some_drop {m : Nat} {l : List Nat} {i : Nat}
    (h : findMarker m l = some i) : ∃ rest, l.drop i = 0xFF :: m :: rest := by
  induction l generalizing i with
  | nil => simp [findMarker] at h
  | cons a t ih =>
    cases t with
    | nil => simp [findMarker] at h
    | cons b rest =>
      rw [findMarker] at h
      split at h
      · rename_i hc
        obtain ⟨rfl, rfl⟩ := hc
        obtain rfl : i = 0 := by simpa using h.symm
        exact ⟨rest, rfl⟩
      · rw [Option.map_eq_some'] at h
        obtain ⟨i', hi', rfl⟩ := h
        simpa using ih hi'

theorem findMarker_some_append {m : Nat} {l E : List Nat} {i : Nat}
    (h : findMarker m l = some i) : findMarker m (l ++ E) = some i := by
  induction l generalizing i with
  | nil => simp [findMarker] at h
  | cons a t ih =>
    cases t with
    | nil => simp [findMarker] at h
    | cons b rest =>
      rw [findMarker] at h
      rw [show (a :: b :: rest) ++ E = a :: b :: (rest ++ E) from rfl, findMarker]
      rw [show (b : Nat) :: (rest ++ E) = (b :: rest) ++ E from rfl]
      split at h <;> rename_i hc
      · rw [if_pos hc]
        simpa using h
      · rw [if_neg hc]
        rw [Option.map_eq_some'] at h
        obtain ⟨i', hi', rfl⟩ := h
        rw [ih hi']
        rfl

theorem findMarker_none_tail {m : Nat} {l : List Nat}
    (h : findMarker m l = none) : findMarker m l.tail = none := by
  match l, h with
  | [], _ => simp [findMarker]
  | [a], _ => simp [findMarker]
  | a :: b :: rest, h =>
    rw [findMarker] at h
    split at h
    · exact absurd h (by simp)
    · simpa using h

theorem findMarker_none_drop {m : Nat} {l : List Nat} (k : Nat)
    (h : findMarker m l = none) : findMarker m (l.drop k) = none := by
  induction k generalizing l with
  | zero => simpa using h
  | succ k ih =>
    rw [← List.tail_drop]
    exact findMarker_none_tail (ih h)

theorem findMarker_none_append {m : Nat} {l E : List Nat}
    (h : findMarker m l = none) (hne : l ≠ []) :
    findMarker m (l ++ E) =
      if l.getLast? = some 0xFF ∧ E.head? = some m then some (l.length - 1)
      else (findMarker m E).map (· + l.length) := by
  induction l with
  | nil => exact absurd rfl hne
  | cons a t ih =>
    cases t with
    | nil =>
      cases E with
      | nil => simp [findMarker, h]
      | cons e E' =>
        simp only [List.cons_append, List.nil_append]
        rw [findMarker]
        by_cases hc : a = 0xFF ∧ e = m
        · rw [if_pos hc]
          rw [if_pos (by simp [hc.1, hc.2])]
          simp
        · rw [if_neg hc]
          rw [if_neg (by
            simp only [List.getLast?_singleton, List.head?_cons,
              Option.some.injEq]
            exact fun hx => hc ⟨hx.1, hx.2⟩)]
          rcases ho : findMarker m (e :: E') with _ | i <;> simp [ho]
    | cons b rest =>
      rw [findMarker] at h
      split at h
      · exact absurd h (by simp)
      · rename_i hc
        rw [Option.map_eq_none'] at h
        have ih' := ih h (by simp)
        simp only [List.cons_append] at ih' ⊢
        rw [findMarker, if_neg hc, ih', List.getLast?_cons_cons]
        by_cases hP : (b :: rest).getLast? = some 0xFF ∧ E.head? = some m
        · rw [if_pos hP, if_pos hP]
          simp only [Option.map_some', Option.some.injEq, List.length_cons]
          omega
        · rw [if_neg hP, if_neg hP]
          rcases findMarker m E with _ | i
          · simp
          · simp only [Option.map_some', Option.some.injEq, List.length_cons]
            omega

/-! ### Unfolding equations for the parsing loop -/

theorem runFramer_nil (st : Bool) (fs : Nat) :
    runFramer [] st fs = ([], ⟨[], st, fs⟩) := by
  rw [runFramer.eq_def]
  simp

theorem runFramer_start_none {buf : List Nat} (fs : Nat)
    (hs : findJpegStart buf = none) :
    runFramer buf false fs =
      ([], ⟨if buf.length > 2 then buf.drop (buf.length - 2) else buf,
        false, fs⟩) := by
  rcases eq_or_ne buf [] with rfl | hne
  · rw [runFramer_nil]
    simp
  · rw [runFramer.eq_def]
    rw [dif_neg hne]
    simp only [Bool.false_eq_true, if_false, hs]
    by_cases hl : buf.length > 2 <;> simp [hl]

theorem runFramer_started_none {buf : List Nat} {fs : Nat} (hne : buf ≠ [])
    (he : findJpegEnd buf fs = none) :
    runFramer buf true fs = ([], ⟨buf, true, fs⟩) := by
  rw [runFramer.eq_def, dif_neg hne]
  simp [he]

theorem runFramer_started_some {buf : List Nat} {fs e : Nat} (hne : buf ≠ [])
    (he : findJpegEnd buf fs = some e) :
    runFramer buf true fs =
      (((buf.take (e + 2)).drop fs) ::
          (runFramer (buf.drop (e + 2)) false fs).1,
        (runFramer (buf.drop (e + 2)) false fs).2) := by
  rw [runFramer.eq_def, dif_neg hne]
  simp [he]

/-- When a start marker is found, the not-inside-a-frame branch falls
through to exactly the inside-a-frame code with `frameStart := jpegStart`,
as in the source's single loop iteration. -/
theorem runFramer_false_found {buf : List Nat} {fs j : Nat}
    (hs : findJpegStart buf = some j) :
    runFramer buf false fs = runFramer buf true j := by
  have hne : buf ≠ [] := by
    intro h
    rw [h] at hs
    simp [findJpegStart, findMarker] at hs
  rw [runFramer.eq_def, dif_neg hne]
  conv_rhs => rw [runFramer.eq_def, dif_neg hne]
  simp only [Bool.false_eq_true, if_false, if_true, hs]

/-- The stale `frameStart` value carried while not inside a frame is never
read: it affects neither the emitted frames nor the observable state. -/
theorem runFramer_fs_irrel (buf : List Nat) (a b : Nat) :
    (runFramer buf false a).1 = (runFramer buf false b).1 ∧
    (runFramer buf false a).2.buffer = (runFramer buf false b).2.buffer ∧
    (runFramer buf false a).2.frameStarted =
      (runFramer buf false b).2.frameStarted ∧
    ((runFramer buf false a).2.frameStarted = true →
      (runFramer buf false a).2.frameStart =
        (runFramer buf false b).2.frameStart) := by
  rcases hs : findJpegStart buf with _ | j
  · rw [runFramer_start_none a hs, runFramer_start_none b hs]
    simp
  · rw [runFramer_false_found hs, runFramer_false_found hs]
    simp

/-- A state left by the loop while not inside a frame has no start marker
in its buffer (otherwise the loop would have consumed it). -/
theorem runFramer_true_out_noStart :
    ∀ (n : Nat) (buf : List Nat), buf.length ≤ n → ∀ (fs : Nat),
      (runFramer buf true fs).2.frameStarted = false →
      findJpegStart (runFramer buf true fs).2.buffer = none := by
  intro n
  induction n with
  | zero =>
    intro buf hle fs
    have hb : buf = [] := by cases buf <;> simp_all
    subst hb
    rw [runFramer_nil]
    simp [findJpegStart, findMarker]
  | succ n ih =>
    intro buf hle fs hout
    rcases eq_or_ne buf [] with rfl | hne
    · rw [runFramer_nil]
      simp [findJpegStart, findMarker]
    rcases he : findJpegEnd buf fs with _ | e
    · rw [runFramer_started_none hne he] at hout ⊢
      simp at hout
    · rw [runFramer_started_some hne he] at hout ⊢
      have hlen : (buf.drop (e + 2)).length ≤ n := by
        have : buf.length ≠ 0 := fun h => hne (List.eq_nil_of_length_eq_zero h)
        simp only [List.length_drop]
        omega
      set rest := buf.drop (e + 2) with hrest
      rcases hs : findJpegStart rest with _ | j
      · rw [runFramer_start_none fs hs]
        simp only
        split
        · exact findMarker_none_drop _ hs
        · exact hs
      · rw [runFramer_false_found hs] at hout ⊢
        exact ih rest hlen j hout

theorem runFramer_out_noStart (buf : List Nat) (st : Bool) (fs : Nat)
    (hout : (runFramer buf st fs).2.frameStarted = false) :
    findJpegStart (runFramer buf st fs).2.buffer = none := by
  cases st with
  | true => exact runFramer_true_out_noStart buf.length buf le_rfl fs hout
  | false =>
    rcases hs : findJpegStart buf with _ | j
    · rw [runFramer_start_none fs hs]
      simp only
      split
      · exact findMarker_none_drop _ hs
      · exact hs
    · rw [runFramer_false_found hs] at hout ⊢
      exact runFramer_true_out_noStart buf.length buf le_rfl j hout

/-- A state left by the loop is stable: running the loop again with no new
bytes emits nothing and leaves the state unchanged. -/
def Quiescent (s : FramerState) : Prop :=
  runFramer s.buffer s.frameStarted s.frameStart = ([], s)

theorem quiescent_true_out :
    ∀ (n : Nat) (buf : List Nat), buf.length ≤ n → ∀ (fs : Nat),
      Quiescent (runFramer buf true fs).2 := by
  intro n
  induction n with
  | zero =>
    intro buf hle fs
    have hb : buf = [] := by cases buf <;> simp_all
    subst hb
    rw [Quiescent, runFramer_nil]
    exact runFramer_nil true fs
  | succ n ih =>
    intro buf hle fs
    rcases eq_or_ne buf [] with rfl | hne
    · rw [Quiescent, runFramer_nil]
      exact runFramer_nil true fs
    rcases he : findJpegEnd buf fs with _ | e
    · rw [Quiescent, runFramer_started_none hne he]
      exact runFramer_started_none hne he
    · rw [Quiescent, runFramer_started_some hne he]
      have hlen : (buf.drop (e + 2)).length ≤ n := by
        have : buf.length ≠ 0 := fun h => hne (List.eq_nil_of_length_eq_zero h)
        simp only [List.length_drop]
        omega
      set rest := buf.drop (e + 2) with hrest
      rcases hs : findJpegStart rest with _ | j
      · rw [runFramer_start_none fs hs]
        simp only [Quiescent]
        split <;> rename_i hl
        · have h2 : (rest.drop (rest.length - 2)).length = 2 := by
            simp only [List.length_drop]
            omega
          rw [runFramer_start_none fs (findMarker_none_drop _ hs)]
          rw [if_neg (by omega)]
        · rw [runFramer_start_none fs hs, if_neg hl]
      · rw [runFramer_false_found hs]
        exact ih rest hlen j

theorem quiescent_out (buf : List Nat) (st : Bool) (fs : Nat) :
    Quiescent (runFramer buf st fs).2 := by
  cases st with
  | true => exact quiescent_true_out buf.length buf le_rfl fs
  | false =>
    rcases eq_or_ne buf [] with rfl | hne
    · rw [Quiescent, runFramer_nil]
      exact runFramer_nil false fs
    rcases hs : findJpegStart buf with _ | j
    · rw [Quiescent, runFramer_start_none fs hs]
      split <;> rename_i hl
      · have h2 : (buf.drop (buf.length - 2)).length = 2 := by
          simp only [List.length_drop]
          omega
        rw [runFramer_start_none fs (findMarker_none_drop _ hs)]
        rw [if_neg (by omega)]
      · rw [runFramer_start_none fs hs, if_neg hl]
    · rw [runFramer_false_found hs]
      exact quiescent_true_out buf.length buf le_rfl j

/-! ### Chunk-boundary invariance

Two parser states are observationally equivalent when they emit the same
frames on every future input: equal states, or both inside a frame with
the same bytes from the frame start on, or both outside a frame with no
start marker buffered and the same (possibly straddling) last byte. -/

def stateEquiv (s t : FramerState) : Prop :=
  s = t ∨
  (s.frameStarted = true ∧ t.frameStarted = true ∧
    s.frameStart + 2 ≤ s.buffer.length ∧ t.frameStart + 2 ≤ t.buffer.length ∧
    s.buffer.drop s.frameStart = t.buffer.drop t.frameStart) ∨
  (s.frameStarted = false ∧ t.frameStarted = false ∧
    findJpegStart s.buffer = none ∧ findJpegStart t.buffer = none ∧
    s.buffer.getLast? = t.buffer.getLast?)

theorem getLast?_drop_last {l : List Nat} {v : Nat} (h : l.getLast? = some v) :
    l.drop (l.length - 1) = [v] := by
  induction l with
  | nil => simp at h
  | cons a t ih =>
    cases t with
    | nil =>
      simp only [List.getLast?_singleton, Option.some.injEq] at h
      simp [h]
    | cons b rest =>
      rw [List.getLast?_cons_cons] at h
      have hih := ih h
      have hl : (a :: b :: rest).length - 1 = rest.length + 1 := by simp
      rw [hl, List.drop_succ_cons]
      have hl2 : (b :: rest).length - 1 = rest.length := by simp
      rw [hl2] at hih
      exact hih

theorem getLast?_drop_of_lt {l : List Nat} {k : Nat} (h : k < l.length) :
    (l.drop k).getLast? = l.getLast? := by
  have hne : l.drop k ≠ [] := by
    intro hd
    have := congrArg List.length hd
    simp only [List.length_drop, List.length_nil] at this
    omega
  conv_rhs => rw [← List.take_append_drop k l]
  rw [List.getLast?_append_of_ne_nil _ hne]

theorem trim_getLast? (l : List Nat) :
    (if l.length > 2 then l.drop (l.length - 2) else l).getLast? =
      l.getLast? := by
  split <;> rename_i hl
  · exact getLast?_drop_of_lt (by omega)
  · rfl

theorem trim_noStart {l : List Nat} (h : findJpegStart l = none) :
    findJpegStart (if l.length > 2 then l.drop (l.length - 2) else l) =
      none := by
  split
  · exact findMarker_none_drop _ h
  · exact h

/-- Outputs of the loop started from the same buffer with different stale
`frameStart` values are observationally equivalent. -/
theorem stateEquiv_runFramer_false (u : List Nat) (a b : Nat) :
    stateEquiv (runFramer u false a).2 (runFramer u false b).2 := by
  obtain ⟨-, hbuf, hst, hfs⟩ := runFramer_fs_irrel u a b
  cases hstv : (runFramer u false a).2.frameStarted with
  | true =>
    left
    ext
    · rw [hbuf]
    · rw [hst]
    · rw [hfs hstv]
  | false =>
    right; right
    refine ⟨hstv, by rw [← hst]; exact hstv,
      runFramer_out_noStart _ _ _ hstv, ?_, ?_⟩
    · rw [← hbuf]
      exact runFramer_out_noStart _ _ _ hstv
    · rw [hbuf]

/-- Inside a frame, the loop's behaviour depends only on the bytes from
the frame start on. -/
theorem runFramer_started_congr {X₁ X₂ : List Nat} {j₁ j₂ : Nat}
    (h₁ : j₁ + 2 ≤ X₁.length) (h₂ : j₂ + 2 ≤ X₂.length)
    (hd : X₁.drop j₁ = X₂.drop j₂) :
    (runFramer X₁ true j₁).1 = (runFramer X₂ true j₂).1 ∧
    stateEquiv (runFramer X₁ true j₁).2 (runFramer X₂ true j₂).2 := by
  have hne₁ : X₁ ≠ [] := by
    intro h
    subst h
    simp at h₁
  have hne₂ : X₂ ≠ [] := by
    intro h
    subst h
    simp at h₂
  have hscan : X₁.drop (j₁ + 2) = X₂.drop (j₂ + 2) := by
    rw [← List.drop_drop 2 j₁, ← List.drop_drop 2 j₂, hd]
  rcases ho : findMarker 0xD9 (X₁.drop (j₁ + 2)) with _ | δ
  · have he₁ : findJpegEnd X₁ j₁ = none := by simp [findJpegEnd, ho]
    have he₂ : findJpegEnd X₂ j₂ = none := by
      simp [findJpegEnd, ← hscan, ho]
    rw [runFramer_started_none hne₁ he₁, runFramer_started_none hne₂ he₂]
    exact ⟨rfl, Or.inr (Or.inl ⟨rfl, rfl, h₁, h₂, hd⟩)⟩
  · have he₁ : findJpegEnd X₁ j₁ = some (δ + (j₁ + 2)) := by
      simp [findJpegEnd, ho]
    have he₂ : findJpegEnd X₂ j₂ = some (δ + (j₂ + 2)) := by
      simp [findJpegEnd, ← hscan, ho]
    rw [runFramer_started_some hne₁ he₁, runFramer_started_some hne₂ he₂]
    have hframe : (X₁.take (δ + (j₁ + 2) + 2)).drop j₁ =
        (X₂.take (δ + (j₂ + 2) + 2)).drop j₂ := by
      rw [List.drop_take, List.drop_take, hd]
      congr 1
      omega
    have hrest : X₁.drop (δ + (j₁ + 2) + 2) = X₂.drop (δ + (j₂ + 2) + 2) := by
      have e1 : δ + (j₁ + 2) + 2 = j₁ + (δ + 4) := by omega
      have e2 : δ + (j₂ + 2) + 2 = j₂ + (δ + 4) := by omega
      rw [e1, e2, ← List.drop_drop (δ + 4) j₁, ← List.drop_drop (δ + 4) j₂, hd]
    simp only
    rw [hframe, hrest]
    obtain ⟨hfr, -, -, -⟩ :=
      runFramer_fs_irrel (X₂.drop (δ + (j₂ + 2) + 2)) j₁ j₂
    exact ⟨by rw [hfr], stateEquiv_runFramer_false _ j₁ j₂⟩

/-- Observational equivalence is preserved by feeding one chunk, and equal
frames are emitted. -/
theorem processChunk_equiv {s t : FramerState} (h : stateEquiv s t)
    (c : List Nat) :
    (processChunk s c).1 = (processChunk t c).1 ∧
    stateEquiv (processChunk s c).2 (processChunk t c).2 := by
  rcases h with rfl | ⟨hs1, ht1, hbs, hbt, hdrop⟩ | ⟨hs0, ht0, hnps, hnpt, hlast⟩
  · exact ⟨rfl, Or.inl rfl⟩
  · rw [processChunk, processChunk, hs1, ht1]
    apply runFramer_started_congr
    · simp only [List.length_append]
      omega
    · simp only [List.length_append]
      omega
    · rw [List.drop_append_of_le_length (by omega),
        List.drop_append_of_le_length (by omega), hdrop]
  · rw [processChunk, processChunk, hs0, ht0]
    rcases eq_or_ne s.buffer [] with hbe | hbne
    · have hte : t.buffer = [] := by
        rw [hbe] at hlast
        exact List.getLast?_eq_none_iff.mp hlast.symm
      rw [hbe, hte]
      simp only [List.nil_append]
      obtain ⟨hfr, -, -, -⟩ := runFramer_fs_irrel c s.frameStart t.frameStart
      exact ⟨hfr, stateEquiv_runFramer_false c _ _⟩
    · have htne : t.buffer ≠ [] := by
        intro h0
        rw [h0] at hlast
        exact hbne (List.getLast?_eq_none_iff.mp hlast)
      have hF1 := findMarker_none_append (E := c) hnps hbne
      have hF2 := findMarker_none_append (E := c) hnpt htne
      by_cases hP : s.buffer.getLast? = some 0xFF ∧ c.head? = some 0xD8
      · have hPt : t.buffer.getLast? = some 0xFF ∧ c.head? = some 0xD8 :=
          ⟨by rw [← hlast]; exact hP.1, hP.2⟩
        have hcne : c ≠ [] := by
          intro h0
          rw [h0] at hP
          simp at hP
        have hj1 : findJpegStart (s.buffer ++ c) =
            some (s.buffer.length - 1) := by
          rw [findJpegStart, hF1, if_pos hP]
        have hj2 : findJpegStart (t.buffer ++ c) =
            some (t.buffer.length - 1) := by
          rw [findJpegStart, hF2, if_pos hPt]
        rw [runFramer_false_found hj1, runFramer_false_found hj2]
        have hsb : s.buffer.length ≠ 0 := fun h0 =>
          hbne (List.eq_nil_of_length_eq_zero h0)
        have htb : t.buffer.length ≠ 0 := fun h0 =>
          htne (List.eq_nil_of_length_eq_zero h0)
        have hcl : c.length ≠ 0 := fun h0 =>
          hcne (List.eq_nil_of_length_eq_zero h0)
        apply runFramer_started_congr
        · simp only [List.length_append]
          omega
        · simp only [List.length_append]
          omega
        · rw [List.drop_append_of_le_length (by omega),
            List.drop_append_of_le_length (by omega),
            getLast?_drop_last hP.1, getLast?_drop_last hPt.1]
      · have hPt : ¬(t.buffer.getLast? = some 0xFF ∧ c.head? = some 0xD8) := by
          rw [← hlast]
          exact hP
        rcases hk : findJpegStart c with _ | k
        · have hkm : findMarker 0xD8 c = none := hk
          have hN1 : findJpegStart (s.buffer ++ c) = none := by
            show findMarker 0xD8 (s.buffer ++ c) = none
            rw [hF1, if_neg hP, hkm]
            rfl
          have hN2 : findJpegStart (t.buffer ++ c) = none := by
            show findMarker 0xD8 (t.buffer ++ c) = none
            rw [hF2, if_neg hPt, hkm]
            rfl
          rw [runFramer_start_none _ hN1, runFramer_start_none _ hN2]
          refine ⟨rfl, Or.inr (Or.inr ⟨rfl, rfl, trim_noStart hN1,
            trim_noStart hN2, ?_⟩)⟩
          show (if (s.buffer ++ c).length > 2 then
              (s.buffer ++ c).drop ((s.buffer ++ c).length - 2)
            else s.buffer ++ c).getLast? =
            (if (t.buffer ++ c).length > 2 then
              (t.buffer ++ c).drop ((t.buffer ++ c).length - 2)
            else t.buffer ++ c).getLast?
          rw [trim_getLast? (s.buffer ++ c), trim_getLast? (t.buffer ++ c)]
          rcases eq_or_ne c [] with rfl | hcne
          · rw [List.append_nil, List.append_nil]
            exact hlast
          · rw [List.getLast?_append_of_ne_nil _ hcne,
              List.getLast?_append_of_ne_nil _ hcne]
        · have hkm : findMarker 0xD8 c = some k := hk
          have hj1 : findJpegStart (s.buffer ++ c) =
              some (k + s.buffer.length) := by
            show findMarker 0xD8 (s.buffer ++ c) = _
            rw [hF1, if_neg hP, hkm]
            rfl
          have hj2 : findJpegStart (t.buffer ++ c) =
              some (k + t.buffer.length) := by
            show findMarker 0xD8 (t.buffer ++ c) = _
            rw [hF2, if_neg hPt, hkm]
            rfl
          rw [runFramer_false_found hj1, runFramer_false_found hj2]
          have hkb : k + 2 ≤ c.length := findMarker_some_bound hk
          apply runFramer_started_congr
          · simp only [List.length_append]
            omega
          · simp only [List.length_append]
            omega
          · have e1 : k + s.buffer.length = s.buffer.length + k := by omega
            have e2 : k + t.buffer.length = t.buffer.length + k := by omega
            rw [e1, e2, List.drop_append, List.drop_append]

/-- Splitting the input at any point: running the loop on `B ++ E` emits
the frames of running it on `B` followed by those of feeding `E` to the
resulting state, ending in equivalent states. -/
theorem runFramer_split :
    ∀ (n : Nat) (B : List Nat), B.length ≤ n →
      ∀ (st : Bool) (fs : Nat) (E : List Nat),
      (runFramer (B ++ E) st fs).1 =
        (runFramer B st fs).1 ++ (processChunk (runFramer B st fs).2 E).1 ∧
      stateEquiv (runFramer (B ++ E) st fs).2
        (processChunk (runFramer B st fs).2 E).2 := by
  intro n
  induction n with
  | zero =>
    intro B hle st fs E
    have hB : B = [] := by cases B <;> simp_all
    subst hB
    rw [List.nil_append, runFramer_nil]
    simp only [processChunk, List.nil_append]
    exact ⟨trivial, Or.inl rfl⟩
  | succ n ih =>
    intro B hle st fs E
    rcases eq_or_ne B [] with rfl | hne
    · rw [List.nil_append, runFramer_nil]
      simp only [processChunk, List.nil_append]
      exact ⟨trivial, Or.inl rfl⟩
    have hBne : (B ++ E) ≠ [] := fun h0 => hne (List.append_eq_nil.mp h0).1
    have key : ∀ fs', (runFramer (B ++ E) true fs').1 =
        (runFramer B true fs').1 ++
          (processChunk (runFramer B true fs').2 E).1 ∧
        stateEquiv (runFramer (B ++ E) true fs').2
          (processChunk (runFramer B true fs').2 E).2 := by
      intro fs'
      rcases he : findJpegEnd B fs' with _ | e
      · rw [runFramer_started_none hne he]
        simp only [processChunk, List.nil_append]
        exact ⟨trivial, Or.inl rfl⟩
      · obtain ⟨δ, hδ, hes⟩ : ∃ δ,
            findMarker 0xD9 (B.drop (fs' + 2)) = some δ ∧ e = δ + (fs' + 2) := by
          rw [findJpegEnd, Option.map_eq_some'] at he
          obtain ⟨δ, h1, h2⟩ := he
          exact ⟨δ, h1, h2.symm⟩
        have hbound := findMarker_some_bound hδ
        rw [List.length_drop] at hbound
        have hfsle : fs' + 2 ≤ B.length := by omega
        have hele : e + 2 ≤ B.length := by omega
        have heBE : findJpegEnd (B ++ E) fs' = some e := by
          rw [findJpegEnd, List.drop_append_of_le_length hfsle,
            findMarker_some_append hδ]
          simp [hes]
        rw [runFramer_started_some hBne heBE, runFramer_started_some hne he]
        rw [List.take_append_of_le_length hele,
          List.drop_append_of_le_length hele]
        have hlen : (B.drop (e + 2)).length ≤ n := by
          have : B.length ≠ 0 := fun h0 =>
            hne (List.eq_nil_of_length_eq_zero h0)
          simp only [List.length_drop]
          omega
        obtain ⟨ihf, ihs⟩ := ih (B.drop (e + 2)) hlen false fs' E
        refine ⟨?_, ihs⟩
        simp only at ihf ⊢
        rw [ihf, List.cons_append]
    cases st with
    | false =>
      rcases hs : findJpegStart B with _ | j
      · rw [runFramer_start_none fs hs]
        simp only [List.nil_append]
        have hequiv : stateEquiv ⟨B, false, fs⟩
            ⟨if B.length > 2 then B.drop (B.length - 2) else B, false, fs⟩ :=
          Or.inr (Or.inr ⟨rfl, rfl, hs, trim_noStart hs,
            (trim_getLast? B).symm⟩)
        exact processChunk_equiv hequiv E
      · have hsBE : findJpegStart (B ++ E) = some j :=
          findMarker_some_append hs
        rw [runFramer_false_found hs, runFramer_false_found hsBE]
        exact key j
    | true => exact key fs

/-- Feeding chunks one at a time to a stable state emits the same frames
as running the loop once over all the bytes appended to that state. -/
theorem feedChunks_flatten :
    ∀ (cs : List (List Nat)) (s : FramerState), Quiescent s →
      (feedChunks s cs).1 =
        (runFramer (s.buffer ++ cs.flatten) s.frameStarted s.frameStart).1 := by
  intro cs
  induction cs with
  | nil =>
    intro s hq
    rw [List.flatten_nil, List.append_nil, hq]
    rfl
  | cons c cs' ih =>
    intro s hq
    show (processChunk s c).1 ++ (feedChunks (processChunk s c).2 cs').1 = _
    have hq2 : Quiescent (processChunk s c).2 := quiescent_out _ _ _
    rw [ih _ hq2]
    have hflat : s.buffer ++ (c :: cs').flatten =
        (s.buffer ++ c) ++ cs'.flatten := by
      rw [List.flatten_cons, List.append_assoc]
    rw [hflat]
    obtain ⟨hf, -⟩ := runFramer_split (s.buffer ++ c).length (s.buffer ++ c)
      le_rfl s.frameStarted s.frameStart cs'.flatten
    rw [hf]
    rfl

/-- C1: for every byte stream and every partition of it into chunks
(including partitions whose boundaries fall inside a two-byte marker),
feeding the chunks one at a time to the frame framer emits exactly the
same sequence of complete JPEG buffers, in the same order, as feeding the
entire stream as one single chunk. -/
theorem framer_chunk_boundary_invariance (chunks : List (List Nat)) :
    (feedChunks initState chunks).1 =
    (feedChunks initState [chunks.flatten]).1 := by
  have hq : Quiescent initState := by
    rw [Quiescent]
    exact runFramer_nil false 0
  rw [feedChunks_flatten chunks initState hq,
    feedChunks_flatten [chunks.flatten] initState hq]
  simp

/-- C7 counterexample: on the buffer `[1, 2, 3]`, which holds no `FF D8`
marker, the framer retains the last TWO bytes `[2, 3]`
(`buffer.slice(-2)`), not only the last byte `[3]` as claimed. -/
theorem framer_trim_last_byte_counterexample :
    (runFramer [1, 2, 3] false 0).2.buffer = [2, 3] ∧
    (runFramer [1, 2, 3] false 0).2.buffer ≠ [3] := by
  constructor <;> simp [runFramer, findJpegStart, findMarker]

/-- C7 (amended): whenever the parser is not inside a frame and the scan
finds no `FF D8` start marker, the framer emits nothing and retains only
the last two bytes of the buffer when it holds more than two bytes (and
the whole buffer otherwise) before waiting for the next chunk. -/
theorem framer_trim_keeps_last_two (buf : List Nat) (fs : Nat)
    (h : findJpegStart buf = none) :
    runFramer buf false fs =
      ([], ⟨if buf.length > 2 then buf.drop (buf.length - 2) else buf,
        false, fs⟩) :=
  runFramer_start_none fs h

theorem framer_trim_keeps_last_two_witness :
    runFramer [1, 2, 3] false 0 = ([], ⟨[2, 3], false, 0⟩) := by
  rw [framer_trim_keeps_last_two [1, 2, 3] 0
    (by simp [findJpegStart, findMarker])]
  norm_num

/-! ### Frame well-formedness (C6) -/

/-- A byte-exact complete JPEG: starts with `FF D8`, ends with `FF D9`. -/
def isJpegSlice (f : List Nat) : Prop :=
  ∃ mid, f = 0xFF :: 0xD8 :: (mid ++ [0xFF, 0xD9])

/-- Predicate `decompRem fs stream X`: the frames `fs` appear in `stream`, in
order, as pairwise non-overlapping contiguous slices
(`stream = g₀ ++ f₁ ++ g₁ ++ ... ++ fₙ ++ tail`), and `X` is a suffix of
the part after the last frame (what remains buffered). -/
def decompRem : List (List Nat) → List Nat → List Nat → Prop
  | [], stream, X => X <:+ stream
  | f :: fs, stream, X => ∃ g Y, stream = g ++ (f ++ Y) ∧ decompRem fs Y X

theorem decompRem_prepend {fs : List (List Nat)} {S X : List Nat}
    (p : List Nat) (h : decompRem fs S X) : decompRem fs (p ++ S) X := by
  cases fs with
  | nil => exact h.trans (List.suffix_append p S)
  | cons f fs' =>
    obtain ⟨g, Y, rfl, hrest⟩ := h
    exact ⟨p ++ g, Y, by rw [List.append_assoc], hrest⟩

theorem decompRem_trans {fs₁ fs₂ : List (List Nat)} {S X T Y : List Nat}
    (h₁ : decompRem fs₁ S X) (h₂ : decompRem fs₂ (X ++ T) Y) :
    decompRem (fs₁ ++ fs₂) (S ++ T) Y := by
  induction fs₁ generalizing S with
  | nil =>
    obtain ⟨w, rfl⟩ := h₁
    rw [List.append_assoc]
    exact decompRem_prepend w h₂
  | cons f fs' ihf =>
    obtain ⟨g, Y₁, rfl, hrest⟩ := h₁
    exact ⟨g, Y₁ ++ T, by simp [List.append_assoc], ihf hrest⟩

/-- Loop-level frame well-formedness: assuming the recorded frame start
(if inside a frame) points at a buffered `FF D8`, every emitted frame is a
complete JPEG slice, the emitted frames decompose the buffer as ordered
non-overlapping slices with the leftover state buffer a suffix of the
remainder, and the output state records a marker again. -/
theorem runFramer_frames_spec :
    ∀ (n : Nat) (buf : List Nat), buf.length ≤ n → ∀ (st : Bool) (fs : Nat),
      (st = true → fs + 2 ≤ buf.length ∧
        (buf.drop fs).take 2 = [0xFF, 0xD8]) →
      (∀ f ∈ (runFramer buf st fs).1, isJpegSlice f) ∧
      decompRem (runFramer buf st fs).1 buf (runFramer buf st fs).2.buffer ∧
      ((runFramer buf st fs).2.frameStarted = true →
        (runFramer buf st fs).2.frameStart + 2 ≤
          (runFramer buf st fs).2.buffer.length ∧
        ((runFramer buf st fs).2.buffer.drop
          (runFramer buf st fs).2.frameStart).take 2 = [0xFF, 0xD8]) := by
  intro n
  induction n with
  | zero =>
    intro buf hle st fs hm0
    have hB : buf = [] := by cases buf <;> simp_all
    subst hB
    rw [runFramer_nil]
    refine ⟨by simp, List.suffix_refl [], fun hst => by
      have h0 := (hm0 hst).1
      simp at h0⟩
  | succ n ih =>
    intro buf hle st fs hm
    have key : ∀ fs', fs' + 2 ≤ buf.length →
        (buf.drop fs').take 2 = [0xFF, 0xD8] →
        (∀ f ∈ (runFramer buf true fs').1, isJpegSlice f) ∧
        decompRem (runFramer buf true fs').1 buf
          (runFramer buf true fs').2.buffer ∧
        ((runFramer buf true fs').2.frameStarted = true →
          (runFramer buf true fs').2.frameStart + 2 ≤
            (runFramer buf true fs').2.buffer.length ∧
          ((runFramer buf true fs').2.buffer.drop
            (runFramer buf true fs').2.frameStart).take 2 =
            [0xFF, 0xD8]) := by
      intro fs' hfb hft
      have hne : buf ≠ [] := by
        intro h0
        rw [h0] at hfb
        simp at hfb
      rcases he : findJpegEnd buf fs' with _ | e
      · rw [runFramer_started_none hne he]
        exact ⟨by simp, List.suffix_refl buf, fun _ => ⟨hfb, hft⟩⟩
      · obtain ⟨δ, hδ, hes⟩ : ∃ δ,
            findMarker 0xD9 (buf.drop (fs' + 2)) = some δ ∧
              e = δ + (fs' + 2) := by
          rw [findJpegEnd, Option.map_eq_some'] at he
          obtain ⟨δ, h1, h2⟩ := he
          exact ⟨δ, h1, h2.symm⟩
        have hbound := findMarker_some_bound hδ
        rw [List.length_drop] at hbound
        have hele : e + 2 ≤ buf.length := by omega
        rw [runFramer_started_some hne he]
        have hlen : (buf.drop (e + 2)).length ≤ n := by
          have : buf.length ≠ 0 := fun h0 =>
            hne (List.eq_nil_of_length_eq_zero h0)
          simp only [List.length_drop]
          omega
        obtain ⟨ihShape, ihDecomp, ihWF⟩ :=
          ih (buf.drop (e + 2)) hlen false fs' (by simp)
        have hT : buf.drop fs' = 0xFF :: 0xD8 :: buf.drop (fs' + 2) := by
          conv_lhs => rw [← List.take_append_drop 2 (buf.drop fs')]
          rw [hft, List.drop_drop]
          rfl
        obtain ⟨tl, htl⟩ := findMarker_some_drop hδ
        have hframe : (buf.take (e + 2)).drop fs' =
            0xFF :: 0xD8 ::
              ((buf.drop (fs' + 2)).take δ ++ [0xFF, 0xD9]) := by
          rw [List.drop_take, show e + 2 - fs' = δ + 4 from by omega, hT]
          rw [show δ + 4 = δ + 2 + 1 + 1 from by omega]
          rw [List.take_succ_cons, List.take_succ_cons]
          rw [show δ + 2 = δ + 2 from rfl, List.take_add, htl]
          rfl
        have hgY : buf = buf.take fs' ++
            ((buf.take (e + 2)).drop fs' ++ buf.drop (e + 2)) := by
          rw [List.drop_take, show e + 2 - fs' = δ + 4 from by omega]
          conv_lhs => rw [← List.take_append_drop fs' buf]
          congr 1
          conv_lhs => rw [← List.take_append_drop (δ + 4) (buf.drop fs')]
          congr 1
          rw [List.drop_drop]
          congr 1
          omega
        refine ⟨?_, ⟨buf.take fs', buf.drop (e + 2), hgY, ihDecomp⟩, ihWF⟩
        intro f hf
        rcases List.mem_cons.mp hf with rfl | hf'
        · exact ⟨(buf.drop (fs' + 2)).take δ, hframe⟩
        · exact ihShape f hf'
    cases st with
    | true => exact key fs (hm rfl).1 (hm rfl).2
    | false =>
      rcases eq_or_ne buf [] with rfl | hne
      · rw [runFramer_nil]
        exact ⟨by simp, List.suffix_refl [], by simp⟩
      rcases hs : findJpegStart buf with _ | j
      · rw [runFramer_start_none fs hs]
        refine ⟨by simp, ?_, by simp⟩
        simp only [decompRem]
        split
        · exact List.drop_suffix _ buf
        · exact List.suffix_refl buf
      · rw [runFramer_false_found hs]
        obtain ⟨tl, htl⟩ := findMarker_some_drop hs
        refine key j (findMarker_some_bound hs) ?_
        rw [htl]
        rfl

/-- Feed-level frame well-formedness, from any state whose recorded frame
start (if inside a frame) points at a buffered `FF D8`. -/
theorem feedChunks_frames_spec :
    ∀ (cs : List (List Nat)) (s : FramerState),
      (s.frameStarted = true → s.frameStart + 2 ≤ s.buffer.length ∧
        (s.buffer.drop s.frameStart).take 2 = [0xFF, 0xD8]) →
      (∀ f ∈ (feedChunks s cs).1, isJpegSlice f) ∧
      decompRem (feedChunks s cs).1 (s.buffer ++ cs.flatten)
        (feedChunks s cs).2.buffer ∧
      ((feedChunks s cs).2.frameStarted = true →
        (feedChunks s cs).2.frameStart + 2 ≤
          (feedChunks s cs).2.buffer.length ∧
        ((feedChunks s cs).2.buffer.drop
          (feedChunks s cs).2.frameStart).take 2 = [0xFF, 0xD8]) := by
  intro cs
  induction cs with
  | nil =>
    intro s hm
    refine ⟨by simp [feedChunks], ?_, hm⟩
    show decompRem [] (s.buffer ++ ([] : List (List Nat)).flatten) s.buffer
    rw [List.flatten_nil, List.append_nil]
    exact List.suffix_refl s.buffer
  | cons c cs' ih =>
    intro s hm
    have hm' : s.frameStarted = true →
        s.frameStart + 2 ≤ (s.buffer ++ c).length ∧
        ((s.buffer ++ c).drop s.frameStart).take 2 = [0xFF, 0xD8] := by
      intro hst
      obtain ⟨h1, h2⟩ := hm hst
      constructor
      · simp only [List.length_append]
        omega
      · rw [List.drop_append_of_le_length (by omega),
          List.take_append_of_le_length (by
            simp only [List.length_drop]
            omega)]
        exact h2
    obtain ⟨sh₁, dc₁, wf₁⟩ := runFramer_frames_spec (s.buffer ++ c).length
      (s.buffer ++ c) le_rfl s.frameStarted s.frameStart hm'
    obtain ⟨sh₂, dc₂, wf₂⟩ := ih (processChunk s c).2 wf₁
    refine ⟨?_, ?_, wf₂⟩
    · intro f hf
      rcases List.mem_append.mp hf with hf' | hf'
      · exact sh₁ f hf'
      · exact sh₂ f hf'
    · show decompRem ((processChunk s c).1 ++ (feedChunks (processChunk s c).2 cs').1)
        (s.buffer ++ (c :: cs').flatten) (feedChunks (processChunk s c).2 cs').2.buffer
      rw [List.flatten_cons, ← List.append_assoc]
      exact decompRem_trans dc₁ dc₂

/-- C6: every frame emitted by the frame framer (under any chunking of
the input) is a byte-exact contiguous slice of the input stream that
begins with `FF D8` and ends with `FF D9`; the frames appear in the
stream in order as pairwise non-overlapping slices (no input byte is
emitted twice), and a frame is only emitted once its end marker is in the
accumulated buffer (every emitted frame carries it). -/
theorem framer_frames_wellformed (chunks : List (List Nat)) :
    (∀ f ∈ (feedChunks initState chunks).1,
      ∃ mid, f = 0xFF :: 0xD8 :: (mid ++ [0xFF, 0xD9])) ∧
    decompRem (feedChunks initState chunks).1 chunks.flatten
      (feedChunks initState chunks).2.buffer := by
  obtain ⟨h1, h2, -⟩ := feedChunks_frames_spec chunks initState
    (by intro h0; simp [initState] at h0)
  refine ⟨h1, ?_⟩
  rw [show chunks.flatten = initState.buffer ++ chunks.flatten from rfl]
  exact h2

/-! ## Message protocol (`packages/core/src/protocol.ts`)

`createMetadataMessage(codec, width, height, fps?)` takes its codec as
the TypeScript string-literal union `'h264' | 'mjpeg' | 'h265'` and
derives both the numeric id (via the `codecMap` object literal) and the
`codecName` from that single argument.  There is no runtime check and no
thrown error: TypeScript erases the union at runtime, so a string outside
the enumeration indexes `codecMap` to `undefined`.  Both views are
embedded: the statically-typed one over the closed enumeration, and the
type-erased runtime one over arbitrary strings. -/

/-- The closed codec enumeration (the parameter's static type). -/
inductive Codec
  | h264
  | mjpeg
  | h265
  deriving Repr, DecidableEq

/-- The `codecMap` object literal `{ h264: 0, mjpeg: 1, h265: 2 }`. -/
def codecMap : Codec → Nat
  | .h264 => 0
  | .mjpeg => 1
  | .h265 => 2

/-- The name string carried as `codecName` (the argument itself). -/
def codecNameOf : Codec → String
  | .h264 => "h264"
  | .mjpeg => "mjpeg"
  | .h265 => "h265"

/-- A `metadata` envelope (`MetadataMessage`; the constant `type` tag is
implicit in the Lean type). -/
structure MetadataMessage where
  codec : Nat
  codecName : String
  width : Int
  height : Int
  fps : Option Int
  deriving Repr, DecidableEq

/-- Function `createMetadataMessage` over the static enumeration. -/
def createMetadataMessage (codec : Codec) (width height : Int)
    (fps : Option Int) : MetadataMessage :=
  { codec := codecMap codec
    codecName := codecNameOf codec
    width := width
    height := height
    fps := fps }

/-- The runtime lookup `codecMap[codec]` on a plain string: `undefined`
(here `none`) for a string outside the enumeration. -/
def codecMapRT (codec : String) : Option Nat :=
  if codec = "h264" then some 0
  else if codec = "mjpeg" then some 1
  else if codec = "h265" then some 2
  else none

/-- A `metadata` envelope as the type-erased runtime produces it: the
numeric id slot may hold `undefined`. -/
structure MetadataMessageRT where
  codec : Option Nat
  codecName : String
  width : Int
  height : Int
  fps : Option Int
  deriving Repr, DecidableEq

/-- The type-erased runtime semantics of `createMetadataMessage`: a total
function — it returns an envelope for EVERY string, never throwing. -/
def createMetadataMessageRT (codec : String) (width height : Int)
    (fps : Option Int) : MetadataMessageRT :=
  { codec := codecMapRT codec
    codecName := codec
    width := width
    height := height
    fps := fps }

/-- C8 counterexample: called with the out-of-enumeration codec "vp9",
`createMetadataMessage` does not fail with an `InvalidCodec` error — it
returns a normal envelope whose numeric codec id is `undefined` and whose
`codecName` echoes the invalid input. -/
theorem createMetadataMessage_no_invalid_codec_error :
    createMetadataMessageRT "vp9" 100 200 none =
      { codec := none, codecName := "vp9", width := 100, height := 200,
        fps := none } := by
  simp [createMetadataMessageRT, codecMapRT]

/-- C8 (amended): the codec parameter is restricted to the closed
enumeration {h264, mjpeg, h265} only by the static type; at runtime an
out-of-enumeration codec yields an envelope with an undefined numeric id
rather than an `InvalidCodec` failure.  For every codec in the
enumeration the envelope's numeric id and `codecName` are the consistent
pair derived from that single input (h264 to 0, mjpeg to 1, h265 to 2),
never two independently settable fields. -/
theorem createMetadataMessage_codec_consistency :
    (∀ (c : Codec) (w h : Int) (fps : Option Int),
      (createMetadataMessage c w h fps).codec = codecMap c ∧
      (createMetadataMessage c w h fps).codecName = codecNameOf c) ∧
    codecMap Codec.h264 = 0 ∧ codecMap Codec.mjpeg = 1 ∧
      codecMap Codec.h265 = 2 ∧
    (∀ (c : Codec) (w h : Int) (fps : Option Int),
      createMetadataMessageRT (codecNameOf c) w h fps =
        { codec := some (codecMap c), codecName := codecNameOf c,
          width := w, height := h, fps := fps }) ∧
    (∀ (s : String) (w h : Int) (fps : Option Int),
      s ≠ "h264" → s ≠ "mjpeg" → s ≠ "h265" →
      (createMetadataMessageRT s w h fps).codec = none ∧
      (createMetadataMessageRT s w h fps).codecName = s) := by
  refine ⟨fun c w h fps => ⟨rfl, rfl⟩, rfl, rfl, rfl, ?_, ?_⟩
  · intro c w h fps
    cases c <;> simp [createMetadataMessageRT, codecMapRT, codecNameOf,
      codecMap]
  · intro s w h fps h1 h2 h3
    simp [createMetadataMessageRT, codecMapRT, h1, h2, h3]

/-! ## Device mutex registry (`packages/core/src/protocol.ts`)

`AsyncMutex` keeps a `locked` flag and a queue of suspended acquirers
(the source's array of Promise `resolve` callbacks, identified here by
task id).  `DeviceMutexManager` creates one mutex per device id lazily. -/

structure AsyncMutex where
  locked : Bool
  waitQueue : List Nat
  deriving Repr, DecidableEq

/-- Constructor `new AsyncMutex()`. -/
def AsyncMutex.new : AsyncMutex := ⟨false, []⟩

/-- Method `release()`: wake the queue's head when there is one (`locked` stays
as it was), otherwise clear `locked`. -/
def AsyncMutex.release (m : AsyncMutex) : Option Nat × AsyncMutex :=
  match m.waitQueue with
  | w :: rest => (some w, ⟨m.locked, rest⟩)
  | [] => (none, ⟨false, []⟩)

/-- Method `withLock(fn)` on the immediate-acquisition path: acquire resolves at
once when the mutex is unlocked, `fn` runs — succeeding with a value or
failing — and the `finally` releases; the outcome of `fn` is returned
unchanged on both paths.  `none` models the caller suspending because the
mutex is already held. -/
def AsyncMutex.withLock {ε α : Type} (m : AsyncMutex) (fn : Except ε α) :
    Option (Except ε α × AsyncMutex) :=
  if m.locked then none
  else
    let held : AsyncMutex := ⟨true, m.waitQueue⟩
    some (fn, (held.release).2)

/-- Class `DeviceMutexManager`: the `mutexes` map. -/
structure DeviceMutexManager where
  mutexes : String → Option AsyncMutex

/-- Constructor `new DeviceMutexManager()`. -/
def DeviceMutexManager.empty : DeviceMutexManager := ⟨fun _ => none⟩

/-- Method `getMutex(deviceId)`: return the device's mutex, creating and storing
a fresh one when absent. -/
def DeviceMutexManager.getMutex (mgr : DeviceMutexManager)
    (deviceId : String) : AsyncMutex × DeviceMutexManager :=
  match mgr.mutexes deviceId with
  | some m => (m, mgr)
  | none =>
      (AsyncMutex.new,
        ⟨fun d => if d = deviceId then some AsyncMutex.new
          else mgr.mutexes d⟩)

/-- Store back the (mutated) mutex of one device. -/
def DeviceMutexManager.setMutex (mgr : DeviceMutexManager)
    (deviceId : String) (m : AsyncMutex) : DeviceMutexManager :=
  ⟨fun d => if d = deviceId then some m else mgr.mutexes d⟩

/-- Method `withDeviceLock(deviceId, fn)`: get-or-create the device's mutex and
run `fn` under its lock. -/
def DeviceMutexManager.withDeviceLock {ε α : Type}
    (mgr : DeviceMutexManager) (deviceId : String) (fn : Except ε α) :
    Option (Except ε α × DeviceMutexManager) :=
  let g := mgr.getMutex deviceId
  (g.1.withLock fn).map fun r => (r.1, g.2.setMutex deviceId r.2)

/-- C9: for every device id and operation, a failing operation still
releases the device's lock on that exit path — a subsequent
`withDeviceLock` for the same device acquires it — and the failure (or
success) value propagates to the caller unchanged. -/
theorem withDeviceLock_releases_and_propagates {ε α : Type}
    (mgr : DeviceMutexManager) (d : String) (fn₁ fn₂ : Except ε α)
    (hfree : mgr.mutexes d = none ∨ mgr.mutexes d = some AsyncMutex.new) :
    ∃ mgr₁, mgr.withDeviceLock d fn₁ = some (fn₁, mgr₁) ∧
      ∃ mgr₂, mgr₁.withDeviceLock d fn₂ = some (fn₂, mgr₂) ∧
        mgr₂.mutexes d = some AsyncMutex.new := by
  have hstep : ∀ (mgr' : DeviceMutexManager) (fn : Except ε α),
      mgr'.mutexes d = none ∨ mgr'.mutexes d = some AsyncMutex.new →
      ∃ mgrOut, mgr'.withDeviceLock d fn = some (fn, mgrOut) ∧
        mgrOut.mutexes d = some AsyncMutex.new := by
    intro mgr' fn hf
    refine ⟨(mgr'.getMutex d).2.setMutex d AsyncMutex.new, ?_, ?_⟩ <;>
      rcases hf with hf | hf <;>
      simp [DeviceMutexManager.withDeviceLock, DeviceMutexManager.getMutex,
        DeviceMutexManager.setMutex, AsyncMutex.withLock, AsyncMutex.release,
        AsyncMutex.new, hf]
  obtain ⟨mgr₁, h1, hfree₁⟩ := hstep mgr fn₁ hfree
  obtain ⟨mgr₂, h2, hfree₂⟩ := hstep mgr₁ fn₂ (Or.inr hfree₁)
  exact ⟨mgr₁, h1, mgr₂, h2, hfree₂⟩

theorem withDeviceLock_releases_witness :
    ∃ mgr₁, DeviceMutexManager.withDeviceLock (ε := String) (α := Nat)
        DeviceMutexManager.empty "X" (Except.error "boom") =
        some (Except.error "boom", mgr₁) ∧
      ∃ mgr₂, DeviceMutexManager.withDeviceLock (ε := String) (α := Nat)
        mgr₁ "X" (Except.ok 42) = some (Except.ok 42, mgr₂) ∧
        mgr₂.mutexes "X" = some AsyncMutex.new :=
  withDeviceLock_releases_and_propagates DeviceMutexManager.empty "X"
    (Except.error "boom") (Except.ok 42) (Or.inl rfl)

/-! ### Interleaving semantics of `withDeviceLock` (C2)

Each task runs one `withDeviceLock(dev, operation)` call through the
phases idle (before `acquire`), waiting (suspended in the wait queue),
holding (the operation runs between `acquire` resolving and `release`),
finished.  Steps follow the source exactly: `acquire` takes the lock when
free or enqueues the resolver; `release` hands the lock to the queue's
head or clears `locked`. -/

inductive OpPhase
  | idle
  | waiting
  | holding
  | finished
  deriving Repr, DecidableEq

structure TaskState where
  dev : String
  phase : OpPhase
  deriving Repr, DecidableEq

/-- The system: the lazily-populated per-device mutex map and the
tasks. -/
structure MutexSys where
  muts : String → Option AsyncMutex
  tasks : Nat → Option TaskState

/-- The mutex a `getMutex(d)` call sees: the stored one, or a fresh
`AsyncMutex` for a device never locked before. -/
def mutexOf (s : MutexSys) (d : String) : AsyncMutex :=
  (s.muts d).getD AsyncMutex.new

def updMut (f : String → Option AsyncMutex) (d : String) (m : AsyncMutex) :
    String → Option AsyncMutex :=
  fun d' => if d' = d then some m else f d'

def updTask (f : Nat → Option TaskState) (p : Nat) (t : TaskState) :
    Nat → Option TaskState :=
  fun p' => if p' = p then some t else f p'

/-- One scheduler step of the task `pid`, operating on device `d`. -/
inductive MutexStep : MutexSys → Nat → String → MutexSys → Prop
  | acquire_free {s : MutexSys} {pid : Nat} {d : String}
      (ht : s.tasks pid = some ⟨d, .idle⟩)
      (hm : (mutexOf s d).locked = false) :
      MutexStep s pid d
        ⟨updMut s.muts d ⟨true, (mutexOf s d).waitQueue⟩,
          updTask s.tasks pid ⟨d, .holding⟩⟩
  | acquire_wait {s : MutexSys} {pid : Nat} {d : String}
      (ht : s.tasks pid = some ⟨d, .idle⟩)
      (hm : (mutexOf s d).locked = true) :
      MutexStep s pid d
        ⟨updMut s.muts d ⟨true, (mutexOf s d).waitQueue ++ [pid]⟩,
          updTask s.tasks pid ⟨d, .waiting⟩⟩
  | release_handoff {s : MutexSys} {pid : Nat} (w : Nat) {d : String}
      (rest : List Nat)
      (ht : s.tasks pid = some ⟨d, .holding⟩)
      (hq : (mutexOf s d).waitQueue = w :: rest)
      (hw : s.tasks w = some ⟨d, .waiting⟩) :
      MutexStep s pid d
        ⟨updMut s.muts d ⟨(mutexOf s d).locked, rest⟩,
          updTask (updTask s.tasks pid ⟨d, .finished⟩) w ⟨d, .holding⟩⟩
  | release_clear {s : MutexSys} {pid : Nat} {d : String}
      (ht : s.tasks pid = some ⟨d, .holding⟩)
      (hq : (mutexOf s d).waitQueue = []) :
      MutexStep s pid d
        ⟨updMut s.muts d ⟨false, []⟩,
          updTask s.tasks pid ⟨d, .finished⟩⟩

/-- Reachability by arbitrary interleaving of task steps. -/
inductive MutexReach : MutexSys → MutexSys → Prop
  | refl (s : MutexSys) : MutexReach s s
  | step {s t u : MutexSys} (h : MutexReach s t) (pid : Nat) (d : String)
      (hstep : MutexStep t pid d u) : MutexReach s u

/-- Invariant: per device at most one holder, and an unlocked mutex has
no holder. -/
def mutexInv (s : MutexSys) : Prop :=
  (∀ p q dp, s.tasks p = some ⟨dp, .holding⟩ →
    s.tasks q = some ⟨dp, .holding⟩ → p = q) ∧
  (∀ d, (mutexOf s d).locked = false →
    ∀ p, s.tasks p ≠ some ⟨d, .holding⟩)

theorem updTask_same (f : Nat → Option TaskState) (p : Nat)
    (t : TaskState) : updTask f p t p = some t := by
  simp [updTask]

theorem updTask_other (f : Nat → Option TaskState) {p p' : Nat}
    (t : TaskState) (h : p' ≠ p) : updTask f p t p' = f p' := by
  simp [updTask, h]

theorem mutexOf_updMut_same (f : String → Option AsyncMutex) (d : String)
    (m : AsyncMutex) (ts : Nat → Option TaskState) :
    mutexOf ⟨updMut f d m, ts⟩ d = m := by
  simp [mutexOf, updMut]

theorem mutexOf_updMut_other (f : String → Option AsyncMutex)
    {d d' : String} (m : AsyncMutex) (ts : Nat → Option TaskState)
    (h : d' ≠ d) : mutexOf ⟨updMut f d m, ts⟩ d' = mutexOf ⟨f, ts⟩ d' := by
  simp [mutexOf, updMut, h]

theorem task_eq_dev {a b : String} {x y : OpPhase}
    (h : (some ⟨a, x⟩ : Option TaskState) = some ⟨b, y⟩) : a = b ∧ x = y := by
  injection h with h1
  injection h1 with h2 h3
  exact ⟨h2, h3⟩

theorem mutexInv_step {s : MutexSys} {pid : Nat} {d : String}
    {t : MutexSys} (hinv : mutexInv s) (h : MutexStep s pid d t) :
    mutexInv t := by
  obtain ⟨hexcl, hlock⟩ := hinv
  cases h with
  | acquire_free ht hm =>
    refine ⟨fun p q dp hp hq => ?_, fun d' hd' p hp => ?_⟩
    · dsimp only at hp hq
      by_cases hpp : p = pid
      · subst hpp
        rw [updTask_same] at hp
        obtain ⟨hdev, -⟩ := task_eq_dev hp
        by_cases hqq : q = p
        · exact hqq.symm
        · rw [updTask_other _ _ hqq] at hq
          rw [← hdev] at hq
          exact absurd hq (hlock d hm q)
      · rw [updTask_other _ _ hpp] at hp
        by_cases hqq : q = pid
        · subst hqq
          rw [updTask_same] at hq
          obtain ⟨hdev, -⟩ := task_eq_dev hq
          rw [← hdev] at hp
          exact absurd hp (hlock d hm p)
        · rw [updTask_other _ _ hqq] at hq
          exact hexcl p q dp hp hq
    · dsimp only at hd' hp
      by_cases hdd : d' = d
      · subst hdd
        rw [mutexOf_updMut_same] at hd'
        simp at hd'
      · rw [mutexOf_updMut_other _ _ _ hdd] at hd'
        by_cases hpp : p = pid
        · subst hpp
          rw [updTask_same] at hp
          obtain ⟨hdev, -⟩ := task_eq_dev hp
          exact hdd hdev.symm
        · rw [updTask_other _ _ hpp] at hp
          exact hlock d' hd' p hp
  | acquire_wait ht hm =>
    refine ⟨fun p q dp hp hq => ?_, fun d' hd' p hp => ?_⟩
    · dsimp only at hp hq
      by_cases hpp : p = pid
      · subst hpp
        rw [updTask_same] at hp
        obtain ⟨-, hph⟩ := task_eq_dev hp
        exact absurd hph (by decide)
      · rw [updTask_other _ _ hpp] at hp
        by_cases hqq : q = pid
        · subst hqq
          rw [updTask_same] at hq
          obtain ⟨-, hph⟩ := task_eq_dev hq
          exact absurd hph (by decide)
        · rw [updTask_other _ _ hqq] at hq
          exact hexcl p q dp hp hq
    · dsimp only at hd' hp
      by_cases hpp : p = pid
      · subst hpp
        rw [updTask_same] at hp
        obtain ⟨-, hph⟩ := task_eq_dev hp
        exact absurd hph (by decide)
      · rw [updTask_other _ _ hpp] at hp
        by_cases hdd : d' = d
        · subst hdd
          rw [mutexOf_updMut_same] at hd'
          simp at hd'
        · rw [mutexOf_updMut_other _ _ _ hdd] at hd'
          exact hlock d' hd' p hp
  | release_handoff w rest ht hq hw =>
    refine ⟨fun p q dp hp hq' => ?_, fun d' hd' p hp => ?_⟩
    · dsimp only at hp hq'
      by_cases hpw : p = w
      · subst hpw
        rw [updTask_same] at hp
        obtain ⟨hdev, -⟩ := task_eq_dev hp
        by_cases hqw : q = p
        · exact hqw.symm
        · rw [updTask_other _ _ hqw] at hq'
          by_cases hqp : q = pid
          · subst hqp
            rw [updTask_same] at hq'
            obtain ⟨-, hph⟩ := task_eq_dev hq'
            exact absurd hph (by decide)
          · rw [updTask_other _ _ hqp] at hq'
            rw [← hdev] at hq'
            exact absurd (hexcl q pid d hq' ht) hqp
      · rw [updTask_other _ _ hpw] at hp
        by_cases hqw : q = w
        · subst hqw
          rw [updTask_same] at hq'
          obtain ⟨hdev, -⟩ := task_eq_dev hq'
          by_cases hpp : p = pid
          · subst hpp
            rw [updTask_same] at hp
            obtain ⟨-, hph⟩ := task_eq_dev hp
            exact absurd hph (by decide)
          · rw [updTask_other _ _ hpp] at hp
            rw [← hdev] at hp
            exact absurd (hexcl p pid d hp ht) hpp
        · rw [updTask_other _ _ hqw] at hq'
          by_cases hpp : p = pid
          · subst hpp
            rw [updTask_same] at hp
            obtain ⟨-, hph⟩ := task_eq_dev hp
            exact absurd hph (by decide)
          · rw [updTask_other _ _ hpp] at hp
            by_cases hqp : q = pid
            · subst hqp
              rw [updTask_same] at hq'
              obtain ⟨-, hph⟩ := task_eq_dev hq'
              exact absurd hph (by decide)
            · rw [updTask_other _ _ hqp] at hq'
              exact hexcl p q dp hp hq'
    · dsimp only at hd' hp
      by_cases hdd : d' = d
      · subst hdd
        rw [mutexOf_updMut_same] at hd'
        dsimp only at hd'
        have hlocked : (mutexOf s d').locked = true := by
          by_contra h0
          exact hlock d' (by simpa using h0) pid ht
        rw [hlocked] at hd'
        simp at hd'
      · rw [mutexOf_updMut_other _ _ _ hdd] at hd'
        by_cases hpw : p = w
        · subst hpw
          rw [updTask_same] at hp
          obtain ⟨hdev, -⟩ := task_eq_dev hp
          exact hdd hdev.symm
        · rw [updTask_other _ _ hpw] at hp
          by_cases hpp : p = pid
          · subst hpp
            rw [updTask_same] at hp
            obtain ⟨-, hph⟩ := task_eq_dev hp
            exact absurd hph (by decide)
          · rw [updTask_other _ _ hpp] at hp
            exact hlock d' hd' p hp
  | release_clear ht hq =>
    refine ⟨fun p q dp hp hq' => ?_, fun d' hd' p hp => ?_⟩
    · dsimp only at hp hq'
      by_cases hpp : p = pid
      · subst hpp
        rw [updTask_same] at hp
        obtain ⟨-, hph⟩ := task_eq_dev hp
        exact absurd hph (by decide)
      · rw [updTask_other _ _ hpp] at hp
        by_cases hqq : q = pid
        · subst hqq
          rw [updTask_same] at hq'
          obtain ⟨-, hph⟩ := task_eq_dev hq'
          exact absurd hph (by decide)
        · rw [updTask_other _ _ hqq] at hq'
          exact hexcl p q dp hp hq'
    · dsimp only at hd' hp
      by_cases hpp : p = pid
      · subst hpp
        rw [updTask_same] at hp
        obtain ⟨-, hph⟩ := task_eq_dev hp
        exact absurd hph (by decide)
      · rw [updTask_other _ _ hpp] at hp
        by_cases hdd : d' = d
        · subst hdd
          exact absurd (hexcl p pid d' hp ht) hpp
        · rw [mutexOf_updMut_other _ _ _ hdd] at hd'
          exact hlock d' hd' p hp

theorem mutexInv_reach {s t : MutexSys} (hinv : mutexInv s)
    (h : MutexReach s t) : mutexInv t := by
  induction h with
  | refl => exact hinv
  | step h pid d hstep ih => exact mutexInv_step ih hstep

/-- A start state: no mutex created yet, tasks as given. -/
def initMutexSys (ts : Nat → Option TaskState) : MutexSys :=
  ⟨fun _ => none, ts⟩

/-- All tasks still before their `acquire` call. -/
def allIdle (ts : Nat → Option TaskState) : Prop :=
  ∀ p t, ts p = some t → t.phase = OpPhase.idle

/-- Two tasks targeting the distinct devices "X" and "Y". -/
def demoTasks : Nat → Option TaskState :=
  fun p => if p = 1 then some ⟨"X", OpPhase.idle⟩
    else if p = 2 then some ⟨"Y", OpPhase.idle⟩ else none

/-- C2: in the interleaving semantics of `withDeviceLock`, (1) two calls
for the same device id never overlap: in every reachable state at most
one task per device is in its holding phase (the second operation runs
only after the first released the lock); (2) a step of a call on one
device never touches another device's lazily-created lock; and (3) calls
on distinct devices X and Y can hold their locks concurrently (a
reachable state has both holding). -/
theorem withDeviceLock_per_device_serialization :
    (∀ (ts : Nat → Option TaskState), allIdle ts →
      ∀ t, MutexReach (initMutexSys ts) t →
      ∀ p q dv, t.tasks p = some ⟨dv, OpPhase.holding⟩ →
        t.tasks q = some ⟨dv, OpPhase.holding⟩ → p = q) ∧
    (∀ (s : MutexSys) (pid : Nat) (dv : String) (t : MutexSys),
      MutexStep s pid dv t → ∀ d', d' ≠ dv → t.muts d' = s.muts d') ∧
    (∃ t, MutexReach (initMutexSys demoTasks) t ∧
      t.tasks 1 = some ⟨"X", OpPhase.holding⟩ ∧
      t.tasks 2 = some ⟨"Y", OpPhase.holding⟩) := by
  refine ⟨?_, ?_, ?_⟩
  · intro ts hidle t hreach p q dv hp hq
    have hinv : mutexInv (initMutexSys ts) := by
      constructor
      · intro p' q' dp hp' hq'
        have := hidle p' _ hp'
        simp at this
      · intro d0 hd0 p' hp'
        have := hidle p' _ hp'
        simp at this
    exact (mutexInv_reach hinv hreach).1 p q dv hp hq
  · intro s pid dv t hstep d' hne
    cases hstep <;> simp [updMut, hne]
  · exact ⟨_, MutexReach.step (MutexReach.step (MutexReach.refl _) 1 "X"
      (MutexStep.acquire_free (by decide) (by decide))) 2 "Y"
      (MutexStep.acquire_free (by decide) (by decide)),
      by decide, by decide⟩

/-! ## Session registry (`packages/ios-simulator/src/stream-service.ts`)

`SimulatorStreamService` keeps a `connections` map from device id to
`SimulatorConnection` (one `device` socket, a `browsers` set, optional
cached `metadata`) plus the polling-interval keys.  Socket side effects
(`ws.send`, `ws.close`) are returned as explicit action lists. -/

/-- A WebSocket endpoint: its identity and current `readyState`
(`WebSocket.OPEN = 1`). -/
structure WS where
  id : Nat
  readyState : Nat
  deriving Repr, DecidableEq

/-- Constant `WebSocket.OPEN`. -/
def wsOPEN : Nat := 1

structure SimulatorMetadata where
  width : Int
  height : Int
  fps : Int
  deriving Repr, DecidableEq

/-- Interface `SimulatorConnection`; `browsers` models the `Set<WebSocket>`
(duplicate-free, identity-keyed). -/
structure SimulatorConnection where
  device : WS
  browsers : List WS
  metadata : Option SimulatorMetadata
  lastFrameTime : Nat
  frameCount : Nat
  deriving Repr, DecidableEq

/-- Messages the service writes to sockets. -/
inductive OutMsg
  | metadataMsg (codec : Nat) (codecName : String) (md : SimulatorMetadata)
  | deviceDisconnected (deviceId : String)
  | forwarded (raw : String)
  deriving Repr, DecidableEq

/-- Observable socket side effects. -/
inductive SocketAction
  | send (target : WS) (msg : OutMsg)
  | closeSocket (ws : WS)
  deriving Repr, DecidableEq

/-- The service state: the `connections` map and the keys of
`pollingIntervals`. -/
structure StreamServiceState where
  connections : String → Option SimulatorConnection
  pollingIntervals : List String

def updConn (f : String → Option SimulatorConnection) (d : String)
    (c : Option SimulatorConnection) :
    String → Option SimulatorConnection :=
  fun d' => if d' = d then c else f d'

/-- Method `handleDeviceConnection(ws, deviceId)` (its synchronous body): stop
any polling fallback, close the existing producer socket if it is open,
and install the new connection — reusing the existing `browsers` set, with
no `metadata` field until the new producer announces it. -/
def handleDeviceConnection (st : StreamServiceState) (ws : WS)
    (deviceId : String) (now : Nat) :
    StreamServiceState × List SocketAction :=
  let polling' := st.pollingIntervals.filter (fun d => d ≠ deviceId)
  let existing := st.connections deviceId
  let closeActs := match existing with
    | some conn =>
        if conn.device.readyState = wsOPEN
          then [SocketAction.closeSocket conn.device] else []
    | none => []
  let newConn : SimulatorConnection :=
    { device := ws
      browsers := match existing with
        | some conn => conn.browsers
        | none => []
      metadata := none
      lastFrameTime := now
      frameCount := 0 }
  (⟨updConn st.connections deviceId (some newConn), polling'⟩, closeActs)

/-- Method `handleBrowserConnection(ws, deviceId)` (its synchronous body): get
the connection — creating the placeholder with the BROWSER socket in the
`device` slot when absent — add the browser to `browsers`, and send the
cached metadata (codec id 1 / name "mjpeg") to the new browser if
known. -/
def handleBrowserConnection (st : StreamServiceState) (ws : WS)
    (deviceId : String) (now : Nat) :
    StreamServiceState × List SocketAction :=
  let conn := match st.connections deviceId with
    | some c => c
    | none =>
        { device := ws
          browsers := []
          metadata := none
          lastFrameTime := now
          frameCount := 0 }
  let conn' := { conn with
    browsers := if ws ∈ conn.browsers then conn.browsers
      else conn.browsers ++ [ws] }
  let acts := match conn.metadata with
    | some md => [SocketAction.send ws (OutMsg.metadataMsg 1 "mjpeg" md)]
    | none => []
  (⟨updConn st.connections deviceId (some conn'), st.pollingIntervals⟩, acts)

/-- The browser `close` handler: delete the socket from the connection's
browser set; the boolean reports whether the 30-second eviction timer is
scheduled (`conn.browsers.size === 0` after the delete). -/
def handleBrowserClose (st : StreamServiceState) (deviceId : String)
    (ws : WS) : StreamServiceState × Bool :=
  match st.connections deviceId with
  | some conn =>
      let conn' := { conn with browsers := conn.browsers.filter (· ≠ ws) }
      (⟨updConn st.connections deviceId (some conn'), st.pollingIntervals⟩,
        conn'.browsers.length = 0)
  | none => (st, false)

/-- The body of that 30-second `setTimeout`: re-read the CURRENT
connection and delete the map entry iff its browser set is still empty.
The producer (`device`) socket is not consulted. -/
def evictionTimerFired (st : StreamServiceState) (deviceId : String) :
    StreamServiceState :=
  match st.connections deviceId with
  | some conn =>
      if conn.browsers.length = 0 then
        ⟨updConn st.connections deviceId none, st.pollingIntervals⟩
      else st
  | none => st

/-- Method `isDeviceConnected(deviceId)`. -/
def isDeviceConnected (st : StreamServiceState) (deviceId : String) :
    Bool :=
  match st.connections deviceId with
  | none => false
  | some conn => conn.device.readyState = wsOPEN

/-- Envelopes a browser can send. -/
inductive BrowserMsg
  | command (raw : String)
  | requestMetadata
  | other (raw : String)
  deriving Repr, DecidableEq

/-- Method `handleBrowserMessage(deviceId, msg, ws)`: forward `command`
envelopes verbatim to the connection's `device` socket when it is open;
answer `request_metadata` from the cache. -/
def handleBrowserMessage (st : StreamServiceState) (deviceId : String)
    (msg : BrowserMsg) (ws : WS) : List SocketAction :=
  match st.connections deviceId with
  | none => []
  | some conn =>
      match msg with
      | .command raw =>
          if conn.device.readyState = wsOPEN then
            [SocketAction.send conn.device (OutMsg.forwarded raw)]
          else []
      | .requestMetadata =>
          match conn.metadata with
          | some md =>
              [SocketAction.send ws (OutMsg.metadataMsg 1 "mjpeg" md)]
          | none => []
      | .other _ => []

/-- C4: attaching a producer for a device that already has one closes
exactly the previous producer connection (when open, else nothing),
installs the newest producer as the only one, preserves the existing
consumer set under it, and resets the cached metadata to unknown. -/
theorem producer_supersede (st : StreamServiceState) (ws : WS)
    (d : String) (now : Nat) (old : SimulatorConnection)
    (hold : st.connections d = some old) :
    (handleDeviceConnection st ws d now).2 =
      (if old.device.readyState = wsOPEN
        then [SocketAction.closeSocket old.device] else []) ∧
    (handleDeviceConnection st ws d now).1.connections d =
      some { device := ws, browsers := old.browsers, metadata := none,
             lastFrameTime := now, frameCount := 0 } := by
  constructor <;> simp [handleDeviceConnection, updConn, hold]

/-- A connection with an open producer socket (id 3), one browser (id 7)
and cached metadata. -/
def demoOldConn : SimulatorConnection :=
  { device := ⟨3, wsOPEN⟩, browsers := [⟨7, wsOPEN⟩],
    metadata := some ⟨100, 200, 30⟩, lastFrameTime := 5, frameCount := 9 }

/-- A service state holding `demoOldConn` under "dev". -/
def demoSt : StreamServiceState :=
  ⟨fun d => if d = "dev" then some demoOldConn else none, []⟩

theorem producer_supersede_witness :
    (handleDeviceConnection demoSt ⟨8, wsOPEN⟩ "dev" 50).2 =
      [SocketAction.closeSocket ⟨3, wsOPEN⟩] ∧
    (handleDeviceConnection demoSt ⟨8, wsOPEN⟩ "dev" 50).1.connections
      "dev" = some { device := ⟨8, wsOPEN⟩, browsers := [⟨7, wsOPEN⟩],
                     metadata := none, lastFrameTime := 50,
                     frameCount := 0 } := by
  obtain ⟨h1, h2⟩ := producer_supersede demoSt ⟨8, wsOPEN⟩ "dev" 50
    demoOldConn rfl
  exact ⟨by rw [h1]; rfl, by rw [h2]; rfl⟩

/-- A session whose producer socket is open but whose consumer set is
empty. -/
def prodOnlyConn : SimulatorConnection :=
  { device := ⟨3, wsOPEN⟩, browsers := [], metadata := none,
    lastFrameTime := 0, frameCount := 0 }

/-- A registry holding only `prodOnlyConn` under "dev". -/
def prodOnlySt : StreamServiceState :=
  ⟨fun d => if d = "dev" then some prodOnlyConn else none, []⟩

/-- C3 counterexample: a session with an OPEN producer socket and zero
consumers is deleted from the registry when the grace-period timer fires
— the eviction check never consults the producer. -/
theorem eviction_ignores_producer_counterexample :
    prodOnlySt.connections "dev" = some prodOnlyConn ∧
    prodOnlyConn.device.readyState = wsOPEN ∧
    prodOnlyConn.browsers = [] ∧
    (evictionTimerFired prodOnlySt "dev").connections "dev" = none := by
  refine ⟨rfl, rfl, rfl, ?_⟩
  simp [evictionTimerFired, prodOnlySt, prodOnlyConn, updConn]

/-- C3 (amended): after a session's consumer set becomes empty a
30-second grace timer is scheduled; when it fires, the session is
destroyed (its device id removed from the registry) iff the consumer set
is still empty at that moment — regardless of the producer, so a session
with an active producer is destroyed too once its consumer count stayed
at zero past the grace window; a consumer present at expiry (e.g. one
that reattached during the window) prevents the eviction. -/
theorem eviction_grace_consumers_only (st : StreamServiceState)
    (d : String) (conn : SimulatorConnection)
    (h : st.connections d = some conn) :
    (evictionTimerFired st d).connections d =
      (if conn.browsers.length = 0 then none else some conn) := by
  by_cases hb : conn.browsers.length = 0
  · simp only [evictionTimerFired, h, if_pos hb]
    simp [updConn]
  · simp only [evictionTimerFired, h, if_neg hb]

theorem eviction_grace_consumers_only_witness :
    (evictionTimerFired demoSt "dev").connections "dev" =
      some demoOldConn := by
  have h := eviction_grace_consumers_only demoSt "dev" demoOldConn rfl
  rw [h]
  rfl

/-- C5: a consumer attaching to a device whose session has cached
metadata is immediately sent exactly one synthetic metadata envelope
(the cached width/height/fps with the fixed codec id 1 / name "mjpeg")
as the attach call's only socket output — so it reaches the consumer
before any frame, which can only be sent by later events — without any
new producer announcement; when no metadata is cached, the attach sends
nothing. -/
theorem late_join_metadata_replay (st : StreamServiceState) (ws : WS)
    (d : String) (now : Nat) (conn : SimulatorConnection)
    (h : st.connections d = some conn) :
    (∀ md, conn.metadata = some md →
      (handleBrowserConnection st ws d now).2 =
        [SocketAction.send ws (OutMsg.metadataMsg 1 "mjpeg" md)]) ∧
    (conn.metadata = none →
      (handleBrowserConnection st ws d now).2 = []) := by
  constructor
  · intro md hmd
    simp [handleBrowserConnection, h, hmd]
  · intro hmd
    simp [handleBrowserConnection, h, hmd]

theorem late_join_metadata_replay_witness :
    (handleBrowserConnection demoSt ⟨9, wsOPEN⟩ "dev" 60).2 =
      [SocketAction.send ⟨9, wsOPEN⟩
        (OutMsg.metadataMsg 1 "mjpeg" ⟨100, 200, 30⟩)] := by
  obtain ⟨h1, -⟩ := late_join_metadata_replay demoSt ⟨9, wsOPEN⟩ "dev" 60
    demoOldConn rfl
  exact h1 ⟨100, 200, 30⟩ rfl

/-- C10: a browser attaching for a device id with no session creates the
placeholder session with the browser's own socket in the producer
(`device`) slot; while that socket is open `isDeviceConnected` reports
true although no device-side producer ever connected, and a `command`
envelope from that browser is forwarded back to the browser's own
socket. -/
theorem placeholder_session_loops_back (st : StreamServiceState)
    (ws : WS) (d : String) (now : Nat) (raw : String)
    (habs : st.connections d = none) (hopen : ws.readyState = wsOPEN) :
    ((handleBrowserConnection st ws d now).1.connections d).map
      (fun c => c.device) = some ws ∧
    isDeviceConnected (handleBrowserConnection st ws d now).1 d = true ∧
    handleBrowserMessage (handleBrowserConnection st ws d now).1 d
      (BrowserMsg.command raw) ws =
      [SocketAction.send ws (OutMsg.forwarded raw)] := by
  refine ⟨?_, ?_, ?_⟩ <;>
    simp [handleBrowserConnection, handleBrowserMessage, isDeviceConnected,
      updConn, habs, hopen]

theorem placeholder_session_loops_back_witness :
    ((handleBrowserConnection ⟨fun _ => none, []⟩ ⟨4, wsOPEN⟩ "sim"
        0).1.connections "sim").map (fun c => c.device) =
      some ⟨4, wsOPEN⟩ ∧
    isDeviceConnected (handleBrowserConnection ⟨fun _ => none, []⟩
      ⟨4, wsOPEN⟩ "sim" 0).1 "sim" = true ∧
    handleBrowserMessage (handleBrowserConnection ⟨fun _ => none, []⟩
      ⟨4, wsOPEN⟩ "sim" 0).1 "sim" (BrowserMsg.command "tap") ⟨4, wsOPEN⟩ =
      [SocketAction.send ⟨4, wsOPEN⟩ (OutMsg.forwarded "tap")] :=
  placeholder_session_loops_back ⟨fun _ => none, []⟩ ⟨4, wsOPEN⟩ "sim" 0
    "tap" rfl rfl

end DeviceStream
